import Mathlib

/-!
# Verification of the `referee` arbitrage engine

Shallow embedding of the opportunity-detection core of the `referee`
repository (`internal/arbitrage/engine.go` and the polling-mode variant of
the engine kept alongside its tests, `internal/config/config.go`,
`internal/model`).  Go `float64` prices and fees are modelled as exact
rationals (`ℚ`): every claim below is about the algebraic structure of the
computation (which formula is evaluated, which comparisons gate which
effects), not about rounding.  Go wall-clock time is modelled as an abstract
millisecond counter threaded through the computation; the side effects of the
engine (persistence calls, the simulated-latency sleep, lock operations) are
recorded in an explicit event trace.
-/

namespace Referee

/-- `model.PriceTick`: a single price update from an exchange. -/
structure PriceTick where
  exchange : String
  pair : String
  bid : ℚ
  ask : ℚ
deriving DecidableEq, Repr

/-- `model.SimulatedTrade`: a completed arbitrage trade to be logged.
The `timestamp` is an abstract millisecond clock value (`time.Now()`). -/
structure SimulatedTrade where
  timestamp : ℕ
  tradingPair : String
  buyExchange : String
  sellExchange : String
  buyPrice : ℚ
  sellPrice : ℚ
  volumeEUR : ℚ
  grossProfitEUR : ℚ
  totalFeesEUR : ℚ
  netProfitEUR : ℚ
deriving DecidableEq, Repr

/-- `config.ExchangeConfig`: settings for a specific exchange. -/
structure ExchangeConfig where
  takerFeePercent : ℚ
deriving DecidableEq, Repr

/-- `config.ArbitrageConfig`: the arbitrage-related settings. -/
structure ArbitrageConfig where
  simulatedTradeVolumeEUR : ℚ
  networkWithdrawalFeeEUR : ℚ
  simulatedLatencyMS : ℕ
  tradingPair : String
deriving DecidableEq, Repr

/-- `config.Config` (the parts the engine reads): the arbitrage settings and
the per-exchange settings.  The Go `map[string]config.ExchangeConfig` is
modelled as an association list. -/
structure Config where
  arbitrage : ArbitrageConfig
  exchanges : List (String × ExchangeConfig)
deriving DecidableEq, Repr

/-- Go map indexing `cfg.Exchanges[name]`: yields the stored entry, or the
zero value of `ExchangeConfig` (taker fee `0`) when `name` has no entry. -/
def Config.exchangeFor (cfg : Config) (name : String) : ExchangeConfig :=
  match cfg.exchanges.find? (fun p => p.1 = name) with
  | some p => p.2
  | none => { takerFeePercent := 0 }

/-- The side effects the engine performs, in order.  `sleep` is the
simulated-latency `time.Sleep`; `rlock`/`runlock` are the polling engine's
`priceMutex.RLock()` / deferred `RUnlock()`; `logError` is the
`logger.Error` call on a failed `LogPriceTick`. -/
inductive Event where
  | logPriceTick (tick : PriceTick)
  | logError
  | sleep (ms : ℕ)
  | logTrade (trade : SimulatedTrade)
  | rlock
  | runlock
deriving DecidableEq, Repr

/-- The intermediate quantities computed by
`checkAndExecuteArbitrage` (`engine.go` lines 59–69) and, identically, by
the polling variant's `evaluateAndExecute`. -/
structure ProfitBreakdown where
  volumeInCrypto : ℚ
  grossProfitEUR : ℚ
  buyLegFee : ℚ
  sellLegFee : ℚ
  totalFeesEUR : ℚ
  netProfitEUR : ℚ
deriving DecidableEq, Repr

/-- The profit computation of `checkAndExecuteArbitrage` /
`evaluateAndExecute`, exactly as written in the source:

    volumeInCrypto := e.cfg.Arbitrage.SimulatedTradeVolumeEUR / buyPrice
    grossProfitEUR := (sellPrice - buyPrice) * volumeInCrypto
    buyLegFee := (buyPrice * volumeInCrypto) * (e.cfg.Exchanges[buyExchange].TakerFeePercent / 100)
    sellLegFee := (sellPrice * volumeInCrypto) * (e.cfg.Exchanges[sellExchange].TakerFeePercent / 100)
    totalFeesEUR := buyLegFee + sellLegFee + e.cfg.Arbitrage.NetworkWithdrawalFeeEUR
    netProfitEUR := grossProfitEUR - totalFeesEUR
-/
def evalBreakdown (cfg : Config) (buyExchange sellExchange : String)
    (buyPrice sellPrice : ℚ) : ProfitBreakdown :=
  let volumeInCrypto := cfg.arbitrage.simulatedTradeVolumeEUR / buyPrice
  let grossProfitEUR := (sellPrice - buyPrice) * volumeInCrypto
  let buyLegFee := (buyPrice * volumeInCrypto) * ((cfg.exchangeFor buyExchange).takerFeePercent / 100)
  let sellLegFee := (sellPrice * volumeInCrypto) * ((cfg.exchangeFor sellExchange).takerFeePercent / 100)
  let totalFeesEUR := buyLegFee + sellLegFee + cfg.arbitrage.networkWithdrawalFeeEUR
  let netProfitEUR := grossProfitEUR - totalFeesEUR
  { volumeInCrypto := volumeInCrypto
    grossProfitEUR := grossProfitEUR
    buyLegFee := buyLegFee
    sellLegFee := sellLegFee
    totalFeesEUR := totalFeesEUR
    netProfitEUR := netProfitEUR }

/-- `checkAndExecuteArbitrage` (`engine.go` lines 58–101): computes the
breakdown and, iff `netProfitEUR > 0`, sleeps for the configured latency and
logs a `SimulatedTrade` whose content is the pre-delay computation and whose
timestamp is taken after the delay (`time.Now()` after `time.Sleep`).
`t0` is the clock value on entry; the trace records the effects. -/
def checkAndExecuteArbitrage (cfg : Config) (t0 : ℕ)
    (buyExchange sellExchange : String) (buyPrice sellPrice : ℚ) : List Event :=
  let b := evalBreakdown cfg buyExchange sellExchange buyPrice sellPrice
  if b.netProfitEUR > 0 then
    [Event.sleep cfg.arbitrage.simulatedLatencyMS,
     Event.logTrade
       { timestamp := t0 + cfg.arbitrage.simulatedLatencyMS
         tradingPair := cfg.arbitrage.tradingPair
         buyExchange := buyExchange
         sellExchange := sellExchange
         buyPrice := buyPrice
         sellPrice := sellPrice
         volumeEUR := cfg.arbitrage.simulatedTradeVolumeEUR
         grossProfitEUR := b.grossProfitEUR
         totalFeesEUR := b.totalFeesEUR
         netProfitEUR := b.netProfitEUR }]
  else []

/-- The polling variant's `evaluateAndExecute`: its body is line-for-line
identical to `checkAndExecuteArbitrage`. -/
def evaluateAndExecute (cfg : Config) (t0 : ℕ)
    (buyExchange sellExchange : String) (buyPrice sellPrice : ℚ) : List Event :=
  let b := evalBreakdown cfg buyExchange sellExchange buyPrice sellPrice
  if b.netProfitEUR > 0 then
    [Event.sleep cfg.arbitrage.simulatedLatencyMS,
     Event.logTrade
       { timestamp := t0 + cfg.arbitrage.simulatedLatencyMS
         tradingPair := cfg.arbitrage.tradingPair
         buyExchange := buyExchange
         sellExchange := sellExchange
         buyPrice := buyPrice
         sellPrice := sellPrice
         volumeEUR := cfg.arbitrage.simulatedTradeVolumeEUR
         grossProfitEUR := b.grossProfitEUR
         totalFeesEUR := b.totalFeesEUR
         netProfitEUR := b.netProfitEUR }]
  else []

/-- A candidate pair as handed to the profit computation: the arguments of
one `checkAndExecuteArbitrage` / `evaluateAndExecute` call. -/
structure Candidate where
  buyExchange : String
  sellExchange : String
  buyPrice : ℚ
  sellPrice : ℚ
deriving DecidableEq, Repr

/-- Go map assignment `e.latestPrices[tick.Exchange] = tick` on the
association-list model of the store: overwrite the entry for the tick's
exchange if present, otherwise add one. -/
def updateStore (store : List (String × PriceTick)) (tick : PriceTick) :
    List (String × PriceTick) :=
  if store.any (fun p => p.1 = tick.exchange) then
    store.map (fun p => if p.1 = tick.exchange then (p.1, tick) else p)
  else store ++ [(tick.exchange, tick)]

/-- The comparison loop of the event-driven `ProcessTick` (`engine.go`
lines 40–54): iterate over the (already updated) store, skip the tick's own
exchange, and for each other exchange forward at most ONE direction — note
the source's `else if`: the reverse direction is tested only when the
forward direction is not crossed. -/
def processTickCandidates (store : List (String × PriceTick))
    (tick : PriceTick) : List Candidate :=
  store.flatMap (fun p =>
    if p.1 = tick.exchange then []
    else if tick.ask < p.2.bid then
      [{ buyExchange := tick.exchange, sellExchange := p.1
         buyPrice := tick.ask, sellPrice := p.2.bid }]
    else if p.2.ask < tick.bid then
      [{ buyExchange := p.1, sellExchange := tick.exchange
         buyPrice := p.2.ask, sellPrice := tick.bid }]
    else [])

/-- The double loop of the polling variant's `checkArbitrage`: for every
unordered pair `i < j` of snapshot entries, test BOTH directions with two
independent `if`s. -/
def pairCandidates : List (String × PriceTick) → List Candidate
  | [] => []
  | p :: rest =>
    rest.flatMap (fun q =>
      (if p.2.ask < q.2.bid then
        [{ buyExchange := p.1, sellExchange := q.1
           buyPrice := p.2.ask, sellPrice := q.2.bid }]
       else []) ++
      (if q.2.ask < p.2.bid then
        [{ buyExchange := q.1, sellExchange := p.1
           buyPrice := q.2.ask, sellPrice := p.2.bid }]
       else []))
    ++ pairCandidates rest

/-- Total sleeping time recorded in a trace: how far the clock advances. -/
def elapsed : List Event → ℕ
  | [] => 0
  | Event.sleep ms :: rest => ms + elapsed rest
  | _ :: rest => elapsed rest

/-- Run `checkAndExecuteArbitrage` on each candidate in order, threading the
clock through the sleeps. -/
def execCandidates (cfg : Config) (t0 : ℕ) : List Candidate → List Event
  | [] => []
  | c :: rest =>
    let evs := checkAndExecuteArbitrage cfg t0 c.buyExchange c.sellExchange c.buyPrice c.sellPrice
    evs ++ execCandidates cfg (t0 + elapsed evs) rest

/-- Run the polling variant's `evaluateAndExecute` on each candidate in
order, threading the clock through the sleeps. -/
def execCandidatesPoll (cfg : Config) (t0 : ℕ) : List Candidate → List Event
  | [] => []
  | c :: rest =>
    let evs := evaluateAndExecute cfg t0 c.buyExchange c.sellExchange c.buyPrice c.sellPrice
    evs ++ execCandidatesPoll cfg (t0 + elapsed evs) rest

/-- The event-driven `ProcessTick` (`engine.go` lines 31–55): attempt to
persist the raw tick (`tickLogFails` abstracts the `LogPriceTick` error
result; on failure the error is logged and execution continues), update the
store, then run the comparison loop, executing each forwarded candidate
synchronously.  Returns the new store and the effect trace of the call. -/
def processTick (cfg : Config) (t0 : ℕ) (tickLogFails : Bool)
    (store : List (String × PriceTick)) (tick : PriceTick) :
    List (String × PriceTick) × List Event :=
  let logEvents :=
    Event.logPriceTick tick :: (if tickLogFails then [Event.logError] else [])
  let newStore := updateStore store tick
  (newStore, logEvents ++ execCandidates cfg t0 (processTickCandidates newStore tick))

/-- The polling variant's `ProcessTick`: takes the write lock and updates the
store; it performs no detection, no persistence and no sleep.  (The lock
events are omitted from this write-path trace; the claims below concern the
read lock held by the detection pass.) -/
def processTickPoll (store : List (String × PriceTick)) (tick : PriceTick) :
    List (String × PriceTick) :=
  updateStore store tick

/-- The polling variant's `checkArbitrage`: takes the read lock, runs the
double comparison loop (executing each candidate synchronously, including
its sleep and persistence call), and releases the read lock only when the
whole pass is over (`defer e.priceMutex.RUnlock()`). -/
def checkArbitrage (cfg : Config) (t0 : ℕ)
    (store : List (String × PriceTick)) : List Event :=
  Event.rlock :: execCandidatesPoll cfg t0 (pairCandidates store) ++ [Event.runlock]

/-- The spec's CostModel `Evaluate` (§4.2), written from the spec's own
formulas over its six numeric inputs, for comparison with the engine's
computation:

    volumeInAsset   = tradeNotional / buyPrice
    grossProfit     = (sellPrice - buyPrice) * volumeInAsset
    buyLegFee       = (buyPrice * volumeInAsset) * (buyFeePct / 100)
    sellLegFee      = (sellPrice * volumeInAsset) * (sellFeePct / 100)
    totalFees       = buyLegFee + sellLegFee + networkFee
    netProfit       = grossProfit - totalFees
-/
def costModelEvaluate (buyPrice sellPrice buyFeePct sellFeePct tradeNotional networkFee : ℚ) :
    ProfitBreakdown :=
  let volumeInAsset := tradeNotional / buyPrice
  let grossProfit := (sellPrice - buyPrice) * volumeInAsset
  let buyLegFee := (buyPrice * volumeInAsset) * (buyFeePct / 100)
  let sellLegFee := (sellPrice * volumeInAsset) * (sellFeePct / 100)
  let totalFees := buyLegFee + sellLegFee + networkFee
  let netProfit := grossProfit - totalFees
  { volumeInCrypto := volumeInAsset
    grossProfitEUR := grossProfit
    buyLegFee := buyLegFee
    sellLegFee := sellLegFee
    totalFeesEUR := totalFees
    netProfitEUR := netProfit }

/-- The value the store (Go map) holds for a given exchange key, on the
association-list model: the first entry with that key, if any. -/
def storeEntry : List (String × PriceTick) → String → Option PriceTick
  | [], _ => none
  | p :: rest, ex => if p.1 = ex then some p.2 else storeEntry rest ex

/-- Spec-side notion for the store invariant: the most recent quote of a
given source in a sequence of ingested ticks (later ticks win). -/
def lastWrite : List PriceTick → String → Option PriceTick
  | [], _ => none
  | t :: ts, ex =>
    match lastWrite ts ex with
    | some u => some u
    | none => if t.exchange = ex then some t else none

/-- Ingest a whole sequence of ticks into an initially empty store,
performing only the store-update step of each ingestion. -/
def ingestAll (ticks : List PriceTick) : List (String × PriceTick) :=
  ticks.foldl updateStore []

/-- Net profit the engine computes for a candidate. -/
def candNet (cfg : Config) (c : Candidate) : ℚ :=
  (evalBreakdown cfg c.buyExchange c.sellExchange c.buyPrice c.sellPrice).netProfitEUR

/-- Number of persistence (`LogTrade`) calls recorded in a trace. -/
def countTrades : List Event → ℕ
  | [] => 0
  | Event.logTrade _ :: rest => 1 + countTrades rest
  | _ :: rest => countTrades rest

/-- Configuration used by the concrete test inputs below: notional 1000 EUR,
network fee 1 EUR, latency 10 ms, and an empty exchange-fee map. -/
def cfgNoFees : Config :=
  { arbitrage :=
      { simulatedTradeVolumeEUR := 1000
        networkWithdrawalFeeEUR := 1
        simulatedLatencyMS := 10
        tradingPair := "X" }
    exchanges := [] }

/-- The configuration of the repository's engine tests and of the spec's
worked numeric example: notional 1000 EUR, network fee 5 EUR, latency 10 ms,
kraken taker fee 0.26 %, binance taker fee 0.1 %. -/
def cfgTest : Config :=
  { arbitrage :=
      { simulatedTradeVolumeEUR := 1000
        networkWithdrawalFeeEUR := 5
        simulatedLatencyMS := 10
        tradingPair := "BTC/EUR" }
    exchanges :=
      [("kraken", { takerFeePercent := 26 / 100 }),
       ("binance", { takerFeePercent := 1 / 10 })] }

/-- A doubly-crossed market: source `a` quotes bid 200 / ask 100, source `b`
quotes bid 150 / ask 50, so each source's ask is below the other's bid. -/
def tickA : PriceTick :=
  { exchange := "a", pair := "X", bid := 200, ask := 100 }

/-- See `tickA`. -/
def tickB : PriceTick :=
  { exchange := "b", pair := "X", bid := 150, ask := 50 }

/-- A degenerate quote whose ask is zero, used to exhibit a non-positive buy
price reaching the profit computation. -/
def tickZero : PriceTick :=
  { exchange := "a", pair := "X", bid := 0, ask := 0 }

/-- An ordinary positive quote for the same exhibit. -/
def tickPos : PriceTick :=
  { exchange := "b", pair := "X", bid := 100, ask := 101 }

/-! ## Supporting lemmas about the quote store -/

lemma storeEntry_map_replace (s : List (String × PriceTick)) (t : PriceTick) (ex : String) :
    storeEntry (s.map (fun p => if p.1 = t.exchange then (p.1, t) else p)) ex
      = if t.exchange = ex then (storeEntry s ex).map (fun _ => t) else storeEntry s ex := by
  induction s with
  | nil => simp [storeEntry]
  | cons p rest ih =>
    by_cases hpt : p.1 = t.exchange <;> by_cases hpe : p.1 = ex
    · have hte : t.exchange = ex := hpt ▸ hpe
      simp [storeEntry, hpt, hpe, ih, hte]
    · have hte : ¬ t.exchange = ex := fun h => hpe (hpt.trans h)
      simp [storeEntry, hpt, hpe, ih, hte]
    · have hte : ¬ t.exchange = ex := fun h => hpt (hpe.trans h.symm)
      have hpt' : ¬ ex = t.exchange := fun h => hpt (hpe.trans h)
      simp [storeEntry, hpt, hpe, ih, hte, hpt']
    · simp [storeEntry, hpt, hpe, ih]

lemma storeEntry_isSome_iff_any (s : List (String × PriceTick)) (ex : String) :
    (storeEntry s ex).isSome = s.any (fun p => p.1 = ex) := by
  induction s with
  | nil => simp [storeEntry]
  | cons p rest ih =>
    by_cases hpe : p.1 = ex <;> simp [storeEntry, hpe, ih]

lemma storeEntry_append (s s' : List (String × PriceTick)) (ex : String) :
    storeEntry (s ++ s') ex =
      match storeEntry s ex with
      | some v => some v
      | none => storeEntry s' ex := by
  induction s with
  | nil => simp [storeEntry]
  | cons p rest ih =>
    by_cases hpe : p.1 = ex <;> simp [storeEntry, hpe, ih]

lemma storeEntry_updateStore (s : List (String × PriceTick)) (t : PriceTick) (ex : String) :
    storeEntry (updateStore s t) ex = if t.exchange = ex then some t else storeEntry s ex := by
  unfold updateStore
  by_cases hany : (s.any (fun p => p.1 = t.exchange)) = true
  · rw [if_pos hany, storeEntry_map_replace]
    by_cases hte : t.exchange = ex
    · subst hte
      have hs : (storeEntry s t.exchange).isSome = true := by
        rw [storeEntry_isSome_iff_any]; exact hany
      cases h : storeEntry s t.exchange with
      | none => rw [h] at hs; simp at hs
      | some u => simp
    · simp [hte]
  · rw [if_neg hany, storeEntry_append]
    by_cases hte : t.exchange = ex
    · subst hte
      have hany' : (s.any (fun p => p.1 = t.exchange)) = false := by
        cases h : (s.any (fun p => p.1 = t.exchange)) with
        | false => rfl
        | true => exact absurd h hany
      have : (storeEntry s t.exchange).isSome = false := by
        rw [storeEntry_isSome_iff_any]; exact hany'
      cases h : storeEntry s t.exchange with
      | none => simp [storeEntry]
      | some u => rw [h] at this; simp at this
    · cases h : storeEntry s ex with
      | none => simp [storeEntry, hte]
      | some u => rw [if_neg hte]

lemma storeEntry_foldl (ticks : List PriceTick) (s : List (String × PriceTick)) (ex : String) :
    storeEntry (ticks.foldl updateStore s) ex =
      match lastWrite ticks ex with
      | some u => some u
      | none => storeEntry s ex := by
  induction ticks generalizing s with
  | nil => simp [lastWrite]
  | cons t ts ih =>
    simp only [List.foldl_cons, lastWrite]
    rw [ih, storeEntry_updateStore]
    cases lastWrite ts ex with
    | some u => simp
    | none =>
      by_cases hte : t.exchange = ex <;> simp [hte]

lemma storeEntry_ingestAll (ticks : List PriceTick) (ex : String) :
    storeEntry (ingestAll ticks) ex = lastWrite ticks ex := by
  rw [ingestAll, storeEntry_foldl]
  cases lastWrite ticks ex <;> simp [storeEntry]

lemma keys_updateStore (s : List (String × PriceTick)) (t : PriceTick) :
    (updateStore s t).map Prod.fst =
      if s.any (fun p => p.1 = t.exchange) then s.map Prod.fst
      else s.map Prod.fst ++ [t.exchange] := by
  unfold updateStore
  by_cases hany : (s.any (fun p => p.1 = t.exchange)) = true
  · rw [if_pos hany, if_pos hany, List.map_map]
    apply List.map_congr_left
    intro p _
    by_cases hpt : p.1 = t.exchange <;> simp [hpt]
  · rw [if_neg hany, if_neg hany]
    simp

lemma nodup_keys_updateStore (s : List (String × PriceTick)) (t : PriceTick)
    (h : (s.map Prod.fst).Nodup) : ((updateStore s t).map Prod.fst).Nodup := by
  rw [keys_updateStore]
  by_cases hany : (s.any (fun p => p.1 = t.exchange)) = true
  · rw [if_pos hany]; exact h
  · rw [if_neg hany]
    have hnot : t.exchange ∉ s.map Prod.fst := by
      intro hmem
      apply hany
      rw [List.any_eq_true]
      rcases List.mem_map.mp hmem with ⟨p, hp, hfst⟩
      exact ⟨p, hp, by simp [hfst]⟩
    simp [List.nodup_append, hnot, h]

lemma nodup_keys_foldl (ticks : List PriceTick) (s : List (String × PriceTick))
    (h : (s.map Prod.fst).Nodup) : (((ticks.foldl updateStore s)).map Prod.fst).Nodup := by
  induction ticks generalizing s with
  | nil => exact h
  | cons t ts ih => exact ih (updateStore s t) (nodup_keys_updateStore s t h)

lemma nodup_keys_ingestAll (ticks : List PriceTick) :
    ((ingestAll ticks).map Prod.fst).Nodup :=
  nodup_keys_foldl ticks [] (by simp)

lemma mem_keys_iff (s : List (String × PriceTick)) (ex : String) :
    ex ∈ s.map Prod.fst ↔ (storeEntry s ex).isSome := by
  rw [storeEntry_isSome_iff_any]
  simp only [List.any_eq_true, decide_eq_true_eq, List.mem_map]

/-! ## Supporting lemmas about the detection loops and their traces -/

lemma mem_processTickCandidates {store : List (String × PriceTick)} {tick : PriceTick}
    {c : Candidate} (hc : c ∈ processTickCandidates store tick) :
    ∃ p ∈ store, ¬ p.1 = tick.exchange ∧
      ((tick.ask < p.2.bid ∧
          c = { buyExchange := tick.exchange, sellExchange := p.1
                buyPrice := tick.ask, sellPrice := p.2.bid }) ∨
       (¬ tick.ask < p.2.bid ∧ p.2.ask < tick.bid ∧
          c = { buyExchange := p.1, sellExchange := tick.exchange
                buyPrice := p.2.ask, sellPrice := tick.bid })) := by
  rw [processTickCandidates, List.mem_flatMap] at hc
  rcases hc with ⟨p, hp, hmem⟩
  refine ⟨p, hp, ?_⟩
  split_ifs at hmem with h1 h2 h3
  · simp at hmem
  · simp at hmem
    exact ⟨h1, Or.inl ⟨h2, hmem⟩⟩
  · simp at hmem
    exact ⟨h1, Or.inr ⟨h2, h3, hmem⟩⟩
  · simp at hmem

lemma mem_pairCandidates {store : List (String × PriceTick)} {c : Candidate}
    (hc : c ∈ pairCandidates store) :
    ∃ p ∈ store, ∃ q ∈ store, p.2.ask < q.2.bid ∧
      c = { buyExchange := p.1, sellExchange := q.1
            buyPrice := p.2.ask, sellPrice := q.2.bid } := by
  induction store with
  | nil => cases hc
  | cons p rest ih =>
    rw [pairCandidates, List.mem_append] at hc
    rcases hc with hc | hc
    · rw [List.mem_flatMap] at hc
      rcases hc with ⟨q, hq, hmem⟩
      rw [List.mem_append] at hmem
      rcases hmem with hmem | hmem
      · split_ifs at hmem with h
        · simp at hmem
          exact ⟨p, List.mem_cons_self p rest, q, List.mem_cons_of_mem p hq, h, hmem⟩
        · simp at hmem
      · split_ifs at hmem with h
        · simp at hmem
          exact ⟨q, List.mem_cons_of_mem p hq, p, List.mem_cons_self p rest, h, hmem⟩
        · simp at hmem
    · rcases ih hc with ⟨a, ha, b, hb, h, rfl⟩
      exact ⟨a, List.mem_cons_of_mem p ha, b, List.mem_cons_of_mem p hb, h, rfl⟩

lemma sleep_mem_checkAndExecuteArbitrage {cfg : Config} {buyExchange sellExchange : String}
    {buyPrice sellPrice : ℚ} (t0 : ℕ)
    (hp : 0 < (evalBreakdown cfg buyExchange sellExchange buyPrice sellPrice).netProfitEUR) :
    Event.sleep cfg.arbitrage.simulatedLatencyMS ∈
      checkAndExecuteArbitrage cfg t0 buyExchange sellExchange buyPrice sellPrice := by
  rw [checkAndExecuteArbitrage]
  simp only [gt_iff_lt, if_pos hp]
  exact List.mem_cons_self _ _

lemma sleep_mem_execCandidates {cfg : Config} {c : Candidate} {cs : List Candidate}
    (hc : c ∈ cs) (hp : 0 < candNet cfg c) (t0 : ℕ) :
    Event.sleep cfg.arbitrage.simulatedLatencyMS ∈ execCandidates cfg t0 cs := by
  induction cs generalizing t0 with
  | nil => cases hc
  | cons d rest ih =>
    rw [execCandidates, List.mem_append]
    rcases List.mem_cons.mp hc with rfl | hmem
    · exact Or.inl (sleep_mem_checkAndExecuteArbitrage t0 hp)
    · exact Or.inr (ih hmem _)

lemma sleep_mem_evaluateAndExecute {cfg : Config} {buyExchange sellExchange : String}
    {buyPrice sellPrice : ℚ} (t0 : ℕ)
    (hp : 0 < (evalBreakdown cfg buyExchange sellExchange buyPrice sellPrice).netProfitEUR) :
    Event.sleep cfg.arbitrage.simulatedLatencyMS ∈
      evaluateAndExecute cfg t0 buyExchange sellExchange buyPrice sellPrice := by
  rw [evaluateAndExecute]
  simp only [gt_iff_lt, if_pos hp]
  exact List.mem_cons_self _ _

lemma sleep_mem_execCandidatesPoll {cfg : Config} {c : Candidate} {cs : List Candidate}
    (hc : c ∈ cs) (hp : 0 < candNet cfg c) (t0 : ℕ) :
    Event.sleep cfg.arbitrage.simulatedLatencyMS ∈ execCandidatesPoll cfg t0 cs := by
  induction cs generalizing t0 with
  | nil => cases hc
  | cons d rest ih =>
    rw [execCandidatesPoll, List.mem_append]
    rcases List.mem_cons.mp hc with rfl | hmem
    · exact Or.inl (sleep_mem_evaluateAndExecute t0 hp)
    · exact Or.inr (ih hmem _)

lemma countTrades_append (a b : List Event) :
    countTrades (a ++ b) = countTrades a + countTrades b := by
  induction a with
  | nil => simp [countTrades]
  | cons e rest ih =>
    cases e <;> simp [countTrades, ih, Nat.add_assoc]

lemma countTrades_evaluateAndExecute (cfg : Config) (t0 : ℕ)
    (buyExchange sellExchange : String) (buyPrice sellPrice : ℚ) :
    countTrades (evaluateAndExecute cfg t0 buyExchange sellExchange buyPrice sellPrice) =
      if 0 < (evalBreakdown cfg buyExchange sellExchange buyPrice sellPrice).netProfitEUR
      then 1 else 0 := by
  rw [evaluateAndExecute]
  split_ifs with h
  · simp [countTrades]
  · simp [countTrades]

lemma countTrades_execCandidatesPoll (cfg : Config) (cs : List Candidate) (t0 : ℕ) :
    countTrades (execCandidatesPoll cfg t0 cs) =
      cs.countP (fun c => decide (0 < candNet cfg c)) := by
  induction cs generalizing t0 with
  | nil => simp [execCandidatesPoll, countTrades]
  | cons c rest ih =>
    rw [execCandidatesPoll, countTrades_append, ih, countTrades_evaluateAndExecute,
      List.countP_cons]
    by_cases h : 0 < candNet cfg c
    · rw [candNet] at h
      simp [candNet, h]
      omega
    · rw [candNet] at h
      simp [candNet, h]

lemma pairCandidates_two (a b : String) (ta tb : PriceTick) :
    pairCandidates [(a, ta), (b, tb)] =
      (if ta.ask < tb.bid then
        [({ buyExchange := a, sellExchange := b
            buyPrice := ta.ask, sellPrice := tb.bid } : Candidate)] else []) ++
      (if tb.ask < ta.bid then
        [({ buyExchange := b, sellExchange := a
            buyPrice := tb.ask, sellPrice := ta.bid } : Candidate)] else []) := by
  simp [pairCandidates]

lemma cfgTest_kraken_fee : cfgTest.exchangeFor "kraken" = { takerFeePercent := 26 / 100 } := rfl

lemma cfgTest_volume : cfgTest.arbitrage.simulatedTradeVolumeEUR = 1000 := rfl

lemma cfgTest_network : cfgTest.arbitrage.networkWithdrawalFeeEUR = 5 := rfl

lemma cfgTest_binance_fee : cfgTest.exchangeFor "binance" = { takerFeePercent := 1 / 10 } := rfl

/-! ## Claim theorems -/

/-- C1: for every candidate pair with a strictly positive buy price, the
engine computes the profit breakdown exactly per the spec's CostModel
formulas (`volumeInAsset = tradeNotional / buyPrice`,
`grossProfit = (sellPrice - buyPrice) * volumeInAsset`,
`buyLegFee = (buyPrice * volumeInAsset) * (buyFeePct / 100)`,
`sellLegFee = (sellPrice * volumeInAsset) * (sellFeePct / 100)`,
`totalFees = buyLegFee + sellLegFee + networkFee`,
`netProfit = grossProfit - totalFees`), with the trade notional, network fee
and per-exchange fee percentages taken from the configuration. -/
theorem engine_profit_matches_spec_formulas (cfg : Config)
    (buyExchange sellExchange : String) (buyPrice sellPrice : ℚ)
    (h : 0 < buyPrice) :
    evalBreakdown cfg buyExchange sellExchange buyPrice sellPrice =
      costModelEvaluate buyPrice sellPrice
        (cfg.exchangeFor buyExchange).takerFeePercent
        (cfg.exchangeFor sellExchange).takerFeePercent
        cfg.arbitrage.simulatedTradeVolumeEUR
        cfg.arbitrage.networkWithdrawalFeeEUR := rfl

/-- Witness for C1 at the spec's worked numeric example
(buy 60000 on kraken, sell 61000 on binance). -/
theorem engine_profit_matches_spec_formulas_witness :
    (0 : ℚ) < 60000 ∧
    evalBreakdown cfgTest "kraken" "binance" 60000 61000 =
      costModelEvaluate 60000 61000
        (cfgTest.exchangeFor "kraken").takerFeePercent
        (cfgTest.exchangeFor "binance").takerFeePercent
        cfgTest.arbitrage.simulatedTradeVolumeEUR
        cfgTest.arbitrage.networkWithdrawalFeeEUR :=
  ⟨by norm_num,
   engine_profit_matches_spec_formulas cfgTest "kraken" "binance" 60000 61000 (by norm_num)⟩

/-- C5: for every evaluated candidate pair, a simulated trade is logged to
persistence iff the computed net profit is strictly positive; when the net
profit is zero or negative the evaluation produces no events at all (no
trade, no persistence call), in both engine variants. -/
theorem trade_emitted_iff_positive_net (cfg : Config) (t0 : ℕ)
    (buyExchange sellExchange : String) (buyPrice sellPrice : ℚ) :
    ((∃ tr, Event.logTrade tr ∈
        checkAndExecuteArbitrage cfg t0 buyExchange sellExchange buyPrice sellPrice) ↔
      0 < (evalBreakdown cfg buyExchange sellExchange buyPrice sellPrice).netProfitEUR) ∧
    ((evalBreakdown cfg buyExchange sellExchange buyPrice sellPrice).netProfitEUR ≤ 0 →
      checkAndExecuteArbitrage cfg t0 buyExchange sellExchange buyPrice sellPrice = []) ∧
    ((∃ tr, Event.logTrade tr ∈
        evaluateAndExecute cfg t0 buyExchange sellExchange buyPrice sellPrice) ↔
      0 < (evalBreakdown cfg buyExchange sellExchange buyPrice sellPrice).netProfitEUR) ∧
    ((evalBreakdown cfg buyExchange sellExchange buyPrice sellPrice).netProfitEUR ≤ 0 →
      evaluateAndExecute cfg t0 buyExchange sellExchange buyPrice sellPrice = []) := by
  refine ⟨?_, ?_, ?_, ?_⟩
  · rw [checkAndExecuteArbitrage]
    split_ifs with h
    · simp only [List.mem_cons, List.not_mem_nil, or_false]
      exact ⟨fun _ => h, fun _ => ⟨_, Or.inr rfl⟩⟩
    · rw [gt_iff_lt] at h
      simp [h]
  · intro hle
    rw [checkAndExecuteArbitrage, if_neg]
    rw [gt_iff_lt, not_lt]
    exact hle
  · rw [evaluateAndExecute]
    split_ifs with h
    · simp only [List.mem_cons, List.not_mem_nil, or_false]
      exact ⟨fun _ => h, fun _ => ⟨_, Or.inr rfl⟩⟩
    · rw [gt_iff_lt] at h
      simp [h]
  · intro hle
    rw [evaluateAndExecute, if_neg]
    rw [gt_iff_lt, not_lt]
    exact hle

/-- Witness for C5: with the test configuration, buying at 60000 on kraken
and selling at 61000 on binance logs a trade, while the one-unit spread
60001 → 60002 produces no events. -/
theorem trade_emitted_iff_positive_net_witness :
    (∃ tr, Event.logTrade tr ∈
       checkAndExecuteArbitrage cfgTest 0 "kraken" "binance" 60000 61000) ∧
    checkAndExecuteArbitrage cfgTest 0 "kraken" "binance" 60001 60002 = [] :=
  ⟨(trade_emitted_iff_positive_net cfgTest 0 "kraken" "binance" 60000 61000).1.mpr
     (by norm_num [evalBreakdown, cfgTest_kraken_fee, cfgTest_binance_fee, cfgTest_volume, cfgTest_network]),
   (trade_emitted_iff_positive_net cfgTest 0 "kraken" "binance" 60001 60002).2.1
     (by norm_num [evalBreakdown, cfgTest_kraken_fee, cfgTest_binance_fee, cfgTest_volume, cfgTest_network])⟩

/-- C6: the quote store is last-write-wins per source.  After ingesting any
sequence of ticks into an initially empty store: the store's keys are
pairwise distinct (exactly one entry per source, no history), the entry for
every source is exactly the most recent tick ingested from that source, and
an entry exists iff the source was seen. -/
theorem store_last_write_wins (ticks : List PriceTick) (ex : String) :
    ((ingestAll ticks).map Prod.fst).Nodup ∧
    storeEntry (ingestAll ticks) ex = lastWrite ticks ex ∧
    (ex ∈ (ingestAll ticks).map Prod.fst ↔ (lastWrite ticks ex).isSome) :=
  ⟨nodup_keys_ingestAll ticks, storeEntry_ingestAll ticks ex,
   by rw [mem_keys_iff, storeEntry_ingestAll]⟩

/-- C7: every candidate either detection loop forwards to the profit
computation satisfies `buyPrice < sellPrice` strictly; a direction with
`buyPrice ≥ sellPrice` is never forwarded. -/
theorem candidates_strictly_crossed :
    (∀ (store : List (String × PriceTick)) (tick : PriceTick) (c : Candidate),
       c ∈ processTickCandidates store tick → c.buyPrice < c.sellPrice) ∧
    (∀ (store : List (String × PriceTick)) (c : Candidate),
       c ∈ pairCandidates store → c.buyPrice < c.sellPrice) := by
  constructor
  · intro store tick c hc
    rcases mem_processTickCandidates hc with ⟨p, _, _, h | h⟩
    · rcases h with ⟨hlt, rfl⟩; exact hlt
    · rcases h with ⟨_, hlt, rfl⟩; exact hlt
  · intro store c hc
    rcases mem_pairCandidates hc with ⟨p, _, q, _, hlt, rfl⟩
    exact hlt

/-- Witness for C7 at a concrete snapshot: the candidate the event-driven
loop forwards for `tickA` against a store holding `tickB` is strictly
crossed. -/
theorem candidates_strictly_crossed_witness :
    ({ buyExchange := "a", sellExchange := "b",
       buyPrice := 100, sellPrice := 150 } : Candidate).buyPrice <
    ({ buyExchange := "a", sellExchange := "b",
       buyPrice := 100, sellPrice := 150 } : Candidate).sellPrice :=
  candidates_strictly_crossed.1 [("b", tickB)] tickA _ (by decide)

/-- C8: for every opportunity that is simulated, the record handed to
persistence after the latency delay contains exactly the buy price, sell
price, gross profit, total fees and net profit computed from the quotes
observed before the delay; only the record's timestamp reflects the delay
(`t0 + simulatedLatencyMS`).  Holds for both engine variants. -/
theorem trade_record_unchanged_by_delay (cfg : Config) (t0 : ℕ)
    (buyExchange sellExchange : String) (buyPrice sellPrice : ℚ)
    (h : 0 < (evalBreakdown cfg buyExchange sellExchange buyPrice sellPrice).netProfitEUR) :
    checkAndExecuteArbitrage cfg t0 buyExchange sellExchange buyPrice sellPrice =
      [Event.sleep cfg.arbitrage.simulatedLatencyMS,
       Event.logTrade
         { timestamp := t0 + cfg.arbitrage.simulatedLatencyMS
           tradingPair := cfg.arbitrage.tradingPair
           buyExchange := buyExchange
           sellExchange := sellExchange
           buyPrice := buyPrice
           sellPrice := sellPrice
           volumeEUR := cfg.arbitrage.simulatedTradeVolumeEUR
           grossProfitEUR :=
             (evalBreakdown cfg buyExchange sellExchange buyPrice sellPrice).grossProfitEUR
           totalFeesEUR :=
             (evalBreakdown cfg buyExchange sellExchange buyPrice sellPrice).totalFeesEUR
           netProfitEUR :=
             (evalBreakdown cfg buyExchange sellExchange buyPrice sellPrice).netProfitEUR }] ∧
    evaluateAndExecute cfg t0 buyExchange sellExchange buyPrice sellPrice =
      checkAndExecuteArbitrage cfg t0 buyExchange sellExchange buyPrice sellPrice := by
  constructor
  · rw [checkAndExecuteArbitrage, if_pos h]
  · rfl

/-- Witness for C8 at the spec's worked example. -/
theorem trade_record_unchanged_by_delay_witness :
    checkAndExecuteArbitrage cfgTest 0 "kraken" "binance" 60000 61000 =
      [Event.sleep cfgTest.arbitrage.simulatedLatencyMS,
       Event.logTrade
         { timestamp := 0 + cfgTest.arbitrage.simulatedLatencyMS
           tradingPair := cfgTest.arbitrage.tradingPair
           buyExchange := "kraken"
           sellExchange := "binance"
           buyPrice := 60000
           sellPrice := 61000
           volumeEUR := cfgTest.arbitrage.simulatedTradeVolumeEUR
           grossProfitEUR :=
             (evalBreakdown cfgTest "kraken" "binance" 60000 61000).grossProfitEUR
           totalFeesEUR :=
             (evalBreakdown cfgTest "kraken" "binance" 60000 61000).totalFeesEUR
           netProfitEUR :=
             (evalBreakdown cfgTest "kraken" "binance" 60000 61000).netProfitEUR }] :=
  (trade_record_unchanged_by_delay cfgTest 0 "kraken" "binance" 60000 61000
    (by norm_num [evalBreakdown, cfgTest_kraken_fee, cfgTest_binance_fee, cfgTest_volume, cfgTest_network])).1

/-- C9: a candidate whose buy (resp. sell) exchange has no entry in the
configured exchange map is priced with a taker fee of 0 % for that leg (the
Go zero-value map lookup); no error is raised, and such a candidate can
still be emitted as a profitable opportunity (shown with an empty exchange
map). -/
theorem missing_exchange_defaults_to_zero_fee :
    (∀ (cfg : Config) (buyExchange sellExchange : String) (buyPrice sellPrice : ℚ),
       cfg.exchanges.find? (fun p => p.1 = buyExchange) = none →
       (evalBreakdown cfg buyExchange sellExchange buyPrice sellPrice).buyLegFee = 0) ∧
    (∀ (cfg : Config) (buyExchange sellExchange : String) (buyPrice sellPrice : ℚ),
       cfg.exchanges.find? (fun p => p.1 = sellExchange) = none →
       (evalBreakdown cfg buyExchange sellExchange buyPrice sellPrice).sellLegFee = 0) ∧
    (∃ tr, Event.logTrade tr ∈ checkAndExecuteArbitrage cfgNoFees 0 "a" "b" 100 150) := by
  refine ⟨?_, ?_, ?_⟩
  · intro cfg buyExchange sellExchange buyPrice sellPrice hnone
    simp [evalBreakdown, Config.exchangeFor, hnone]
  · intro cfg buyExchange sellExchange buyPrice sellPrice hnone
    simp [evalBreakdown, Config.exchangeFor, hnone]
  · rw [checkAndExecuteArbitrage, if_pos]
    · exact ⟨_, List.mem_cons_of_mem _ (List.mem_cons_self _ _)⟩
    · norm_num [evalBreakdown, Config.exchangeFor, cfgNoFees]

/-- Witness for C9: with the empty exchange map, both legs of the concrete
profitable candidate carry zero fees. -/
theorem missing_exchange_defaults_to_zero_fee_witness :
    (evalBreakdown cfgNoFees "a" "b" 100 150).buyLegFee = 0 ∧
    (evalBreakdown cfgNoFees "a" "b" 100 150).sellLegFee = 0 :=
  ⟨missing_exchange_defaults_to_zero_fee.1 cfgNoFees "a" "b" 100 150 rfl,
   missing_exchange_defaults_to_zero_fee.2.1 cfgNoFees "a" "b" 100 150 rfl⟩

/-- C10: for every ingested tick the event-driven engine first attempts to
persist the raw tick (the `LogPriceTick` attempt is the head of the effect
trace even when no opportunity exists), and when that call fails the error
is only logged: the resulting store and the entire detection pass are
identical to the success case. -/
theorem tick_persisted_first_and_errors_only_logged (cfg : Config) (t0 : ℕ)
    (store : List (String × PriceTick)) (tick : PriceTick) :
    (processTick cfg t0 true store tick).1 = (processTick cfg t0 false store tick).1 ∧
    ((processTick cfg t0 false store tick).2).head? = some (Event.logPriceTick tick) ∧
    ((processTick cfg t0 true store tick).2).head? = some (Event.logPriceTick tick) ∧
    (processTick cfg t0 true store tick).2 =
      Event.logPriceTick tick :: Event.logError ::
        ((processTick cfg t0 false store tick).2).tail := by
  refine ⟨rfl, ?_, ?_, ?_⟩ <;> simp [processTick]

/-- C4 counterexample: a snapshot holding an ordinary quote for source `b`
(bid 100) receives a tick from source `a` whose ask is `0`.  The `ask < bid`
comparison (`0 < 100`) passes, so the event-driven detection loop forwards a
candidate whose buy price is `0` to the profit computation — the detector
applies no positivity filter. -/
theorem nonpositive_buy_price_forwarded_cex :
    processTickCandidates [("b", tickPos)] tickZero =
      [{ buyExchange := "a", sellExchange := "b", buyPrice := 0, sellPrice := 100 }] ∧
    ¬ (0 : ℚ) < ({ buyExchange := "a", sellExchange := "b",
                   buyPrice := 0, sellPrice := 100 } : Candidate).buyPrice := by
  constructor <;> decide

/-- C4 amended: the buy price of every forwarded candidate is the ask of
some quote in the snapshot, so whenever every quote in play has a strictly
positive ask — the code itself enforces no such filter — every forwarded buy
price is strictly positive and the division is well-defined.  Holds for both
detection loops. -/
theorem buy_price_positive_of_positive_asks :
    (∀ (store : List (String × PriceTick)) (tick : PriceTick) (c : Candidate),
       0 < tick.ask → (∀ p ∈ store, 0 < p.2.ask) →
       c ∈ processTickCandidates store tick → 0 < c.buyPrice) ∧
    (∀ (store : List (String × PriceTick)) (c : Candidate),
       (∀ p ∈ store, 0 < p.2.ask) →
       c ∈ pairCandidates store → 0 < c.buyPrice) := by
  constructor
  · intro store tick c htick hstore hc
    rcases mem_processTickCandidates hc with ⟨p, hp, _, h | h⟩
    · rcases h with ⟨_, rfl⟩; exact htick
    · rcases h with ⟨_, _, rfl⟩; exact hstore p hp
  · intro store c hstore hc
    rcases mem_pairCandidates hc with ⟨p, hp, q, _, _, rfl⟩
    exact hstore p hp

/-- Witness for the amended C4 at a concrete snapshot of positive quotes. -/
theorem buy_price_positive_of_positive_asks_witness :
    (0 : ℚ) < ({ buyExchange := "a", sellExchange := "b",
                 buyPrice := 100, sellPrice := 150 } : Candidate).buyPrice :=
  buy_price_positive_of_positive_asks.1 [("b", tickB)] tickA _
    (by decide) (by decide) (by decide)

/-- C2 counterexample: with sources `a` (bid 200 / ask 100) and `b`
(bid 150 / ask 50) the market is crossed in both directions and both
directions are individually profitable under `cfgNoFees`, yet the
event-driven detection pass triggered by `a`'s tick forwards only the
buy-on-`a` direction (the source's `else if`) and logs exactly one trade —
the claim predicts both directions are evaluated and two trades emitted. -/
theorem crossed_market_single_direction_cex :
    tickA.ask < tickB.bid ∧ tickB.ask < tickA.bid ∧
    0 < (evalBreakdown cfgNoFees "a" "b" 100 150).netProfitEUR ∧
    0 < (evalBreakdown cfgNoFees "b" "a" 50 200).netProfitEUR ∧
    processTickCandidates [("b", tickB)] tickA =
      [{ buyExchange := "a", sellExchange := "b", buyPrice := 100, sellPrice := 150 }] ∧
    countTrades (processTick cfgNoFees 0 false [("b", tickB)] tickA).2 = 1 := by
  refine ⟨by decide, by decide, ?_, ?_, by decide, ?_⟩
  · norm_num [evalBreakdown, Config.exchangeFor, cfgNoFees]
  · norm_num [evalBreakdown, Config.exchangeFor, cfgNoFees]
  · norm_num [processTick, processTickCandidates, updateStore, execCandidates,
      checkAndExecuteArbitrage, evalBreakdown, Config.exchangeFor, cfgNoFees,
      tickA, tickB, countTrades, countTrades_append]

/-- C2 amended: in the POLLING variant's detection pass both directions of a
two-source snapshot are evaluated independently — each direction enters the
candidate list iff its ask is below the other side's bid, and the number of
trades logged by the pass is the sum of the two directions' individual
profitability indicators.  (In the event-driven variant the reverse
direction is tested only when the forward direction is not crossed, see the
counterexample.) -/
theorem polling_pass_evaluates_both_directions (cfg : Config) (t0 : ℕ)
    (a b : String) (ta tb : PriceTick) (hab : a ≠ b) :
    (({ buyExchange := a, sellExchange := b,
        buyPrice := ta.ask, sellPrice := tb.bid } : Candidate)
       ∈ pairCandidates [(a, ta), (b, tb)] ↔ ta.ask < tb.bid) ∧
    (({ buyExchange := b, sellExchange := a,
        buyPrice := tb.ask, sellPrice := ta.bid } : Candidate)
       ∈ pairCandidates [(a, ta), (b, tb)] ↔ tb.ask < ta.bid) ∧
    countTrades (checkArbitrage cfg t0 [(a, ta), (b, tb)]) =
      (if ta.ask < tb.bid ∧ 0 < (evalBreakdown cfg a b ta.ask tb.bid).netProfitEUR
       then 1 else 0) +
      (if tb.ask < ta.bid ∧ 0 < (evalBreakdown cfg b a tb.ask ta.bid).netProfitEUR
       then 1 else 0) := by
  have hpc := pairCandidates_two a b ta tb
  refine ⟨?_, ?_, ?_⟩
  · rw [hpc]
    by_cases h1 : ta.ask < tb.bid
    · simp [h1]
    · simp only [h1, if_false, List.nil_append, iff_false]
      by_cases h2 : tb.ask < ta.bid
      · simp only [h2, if_true]
        intro hmem
        rcases List.mem_singleton.mp hmem with heq
        exact hab (congrArg Candidate.buyExchange heq)
      · simp [h2]
  · rw [hpc]
    by_cases h2 : tb.ask < ta.bid
    · simp [h2]
    · simp only [h2, if_false, List.append_nil, iff_false]
      by_cases h1 : ta.ask < tb.bid
      · simp only [h1, if_true]
        intro hmem
        rcases List.mem_singleton.mp hmem with heq
        exact hab (congrArg Candidate.buyExchange heq).symm
      · simp [h1]
  · have h1 : countTrades (checkArbitrage cfg t0 [(a, ta), (b, tb)]) =
        countTrades (execCandidatesPoll cfg t0 (pairCandidates [(a, ta), (b, tb)]) ++
          [Event.runlock]) := rfl
    rw [h1, countTrades_append]
    have h2 : countTrades [Event.runlock] = 0 := rfl
    rw [h2, Nat.add_zero, countTrades_execCandidatesPoll, hpc, List.countP_append]
    by_cases h1 : ta.ask < tb.bid <;> by_cases h2 : tb.ask < ta.bid <;>
      simp [h1, h2, candNet, List.countP_cons]

/-- Witness for the amended C2 at the concrete doubly-crossed snapshot. -/
theorem polling_pass_evaluates_both_directions_witness :
    (({ buyExchange := "a", sellExchange := "b",
        buyPrice := tickA.ask, sellPrice := tickB.bid } : Candidate)
       ∈ pairCandidates [("a", tickA), ("b", tickB)] ↔ tickA.ask < tickB.bid) ∧
    (({ buyExchange := "b", sellExchange := "a",
        buyPrice := tickB.ask, sellPrice := tickA.bid } : Candidate)
       ∈ pairCandidates [("a", tickA), ("b", tickB)] ↔ tickB.ask < tickA.bid) ∧
    countTrades (checkArbitrage cfgNoFees 0 [("a", tickA), ("b", tickB)]) =
      (if tickA.ask < tickB.bid ∧
          0 < (evalBreakdown cfgNoFees "a" "b" tickA.ask tickB.bid).netProfitEUR
       then 1 else 0) +
      (if tickB.ask < tickA.bid ∧
          0 < (evalBreakdown cfgNoFees "b" "a" tickB.ask tickA.bid).netProfitEUR
       then 1 else 0) :=
  polling_pass_evaluates_both_directions cfgNoFees 0 "a" "b" tickA tickB (by decide)

/-- C3 counterexample: ingesting `a`'s tick against a store holding `b`'s
quote finds a profitable opportunity, and the ingestion call's own effect
trace contains the simulated-latency sleep and the persistence call — the
ingestion path blocks on detection, the delay and persistence, because the
source runs them synchronously inside `ProcessTick`. -/
theorem ingest_blocks_on_delay_cex :
    Event.sleep 10 ∈ (processTick cfgNoFees 0 false [("b", tickB)] tickA).2 ∧
    Event.logTrade
      { timestamp := 10, tradingPair := "X", buyExchange := "a", sellExchange := "b"
        buyPrice := 100, sellPrice := 150, volumeEUR := 1000
        grossProfitEUR := 500, totalFeesEUR := 1, netProfitEUR := 499 }
      ∈ (processTick cfgNoFees 0 false [("b", tickB)] tickA).2 := by
  constructor <;>
    norm_num [processTick, processTickCandidates, updateStore, execCandidates,
      checkAndExecuteArbitrage, evalBreakdown, Config.exchangeFor, cfgNoFees,
      tickA, tickB]

/-- C3 amended: the simulated-latency delay is NOT scoped off the ingestion
path.  In the event-driven engine, whenever the pass triggered by an
ingested tick forwards a profitable candidate, the sleep occurs inside the
`ProcessTick` call itself (ingestion blocks for the delay and the
persistence call); in the polling engine the detection pass performs the
sleep between acquiring and releasing the store's read lock, so ingestion —
which needs the write lock — can be delayed by an in-flight pass. -/
theorem delay_runs_inline_and_under_read_lock :
    (∀ (cfg : Config) (t0 : ℕ) (fails : Bool) (store : List (String × PriceTick))
       (tick : PriceTick) (c : Candidate),
       c ∈ processTickCandidates (updateStore store tick) tick →
       0 < candNet cfg c →
       Event.sleep cfg.arbitrage.simulatedLatencyMS ∈ (processTick cfg t0 fails store tick).2) ∧
    (∀ (cfg : Config) (t0 : ℕ) (store : List (String × PriceTick)) (c : Candidate),
       c ∈ pairCandidates store → 0 < candNet cfg c →
       ∃ mid, checkArbitrage cfg t0 store = Event.rlock :: mid ++ [Event.runlock] ∧
         Event.sleep cfg.arbitrage.simulatedLatencyMS ∈ mid) := by
  constructor
  · intro cfg t0 fails store tick c hc hp
    have hmem := sleep_mem_execCandidates hc hp t0
    rw [processTick]
    simp only [List.mem_append, List.mem_cons]
    tauto
  · intro cfg t0 store c hc hp
    exact ⟨_, rfl, sleep_mem_execCandidatesPoll hc hp t0⟩

/-- Witness for the amended C3 at the concrete profitable snapshot. -/
theorem delay_runs_inline_and_under_read_lock_witness :
    Event.sleep cfgNoFees.arbitrage.simulatedLatencyMS ∈
      (processTick cfgNoFees 0 true [("b", tickB)] tickA).2 :=
  delay_runs_inline_and_under_read_lock.1 cfgNoFees 0 true [("b", tickB)] tickA
    { buyExchange := "a", sellExchange := "b", buyPrice := 100, sellPrice := 150 }
    (by decide)
    (by norm_num [candNet, evalBreakdown, Config.exchangeFor, cfgNoFees])

end Referee
